import Mathlib

/-!
Verification of the pjscrape crawl scheduler and output pipeline
(src/pjscrape.js) via a shallow embedding in Lean 4.

The embedding translates the source faithfully:
* JavaScript values that matter to the pipeline are modelled by `JSVal`,
  with JS truthiness (`jsTruthy`) and the `arrify` helper (line 61).
* The batching writer `writers.base` (lines 223-275) becomes explicit
  state passing over `WriterState`.
* The one-file-per-item writer `writers.itemfile` (lines 289-314)
  becomes `itemfileAdd`, recording each `phantom.saveToFile` call.
* The CSV formatter (lines 158-200) becomes `csvFormat`, including
  JavaScript's hole-skipping `Array.prototype.map` behaviour on the
  padding produced by `new Array(n)`.
* The suite runner (lines 318-528) becomes `completeStep` /
  `scrapeUrl` / `runSuiteAux` / `crawl`, with the page collaborator
  abstracted as an environment `String → PageModel`.
* The readiness polling loop in `ScraperSuite.prototype.scrape`
  (lines 466-482) becomes `pollTrace` / `scrapeFire`.
-/

namespace Pjscrape

/-- Model of the JavaScript values flowing through the pipeline. -/
inductive JSVal : Type where
  | null
  | bool (b : Bool)
  | int (n : Int)
  | str (s : String)
  | arr (xs : List JSVal)
  | obj (kvs : List (String × JSVal))

/-- JavaScript truthiness of a `JSVal`. -/
def jsTruthy : JSVal → Bool
  | .null => false
  | .bool b => b
  | .int n => decide (n ≠ 0)
  | .str s => decide (s ≠ "")
  | .arr _ => true
  | .obj _ => true

/-- `arrify` (line 61): `isArray(a) ? a : a ? [a] : []`. -/
def arrify (a : JSVal) : List JSVal :=
  match a with
  | .arr xs => xs
  | v => if jsTruthy v then [v] else []

/-- Abstract formatter contract: `start`, `delimiter`, `end` tokens and
`format(item)` (the `end` token is called `endTok` since `end` is a Lean
keyword). -/
structure Formatter where
  start : String
  delim : String
  endTok : String
  format : JSVal → String

/-- Mutable state of `writers.base` (lines 225-232): cumulative `count`,
buffered `items`, and the `firstWrite` flag. (`lastWrite` is set only by
`finish`, which we model by passing the flag explicitly.) -/
structure WriterState where
  count : Nat
  items : List JSVal
  firstWrite : Bool

/-- `writeBatch` (lines 238-246): frame a batch with the formatter's
start/delimiter/end tokens.  The caller clears `firstWrite` afterwards. -/
def writeBatch (fmt : Formatter) (firstWrite lastWrite : Bool) (batch : List JSVal) :
    String :=
  (if firstWrite then fmt.start else fmt.delim)
    ++ String.intercalate fmt.delim (batch.map fmt.format)
    ++ (if lastWrite then fmt.endTok else "")

/-- `w.add` (lines 249-260).  Returns the new state and, when a batch was
flushed, the batch together with the string written.  `batchSize = none`
models an unconfigured `config.batchSize`; JS treats a configured `0` as
falsy, hence the `b ≠ 0` conjunct. -/
def wAdd (fmt : Formatter) (batchSize : Option Nat) (st : WriterState) (i : JSVal) :
    WriterState × Option (List JSVal × String) :=
  if jsTruthy i then
    let added := arrify i
    let items := st.items ++ added
    let count := st.count + added.length
    match batchSize with
    | some b =>
      if b ≠ 0 ∧ items.length > b then
        let batch := items.take b
        (⟨count, items.drop b, false⟩, some (batch, writeBatch fmt st.firstWrite false batch))
      else (⟨count, items, st.firstWrite⟩, none)
    | none => (⟨count, items, st.firstWrite⟩, none)
  else (st, none)

/-- `w.finish` (lines 262-265): set `lastWrite` and flush the remaining
buffer (even when it is empty). -/
def wFinish (fmt : Formatter) (st : WriterState) : String :=
  writeBatch fmt st.firstWrite true st.items

/-- Run a sequence of `add` calls from a given state, collecting each
flushed `(batch, written string)` pair in order. -/
def wRun (fmt : Formatter) (batchSize : Option Nat) :
    WriterState → List JSVal → WriterState × List (List JSVal × String)
  | st, [] => (st, [])
  | st, i :: rest =>
    let step := wAdd fmt batchSize st i
    let next := wRun fmt batchSize step.1 rest
    (next.1, (match step.2 with | some p => [p] | none => []) ++ next.2)

/-- A complete writer run: the initial state of `writers.base`
(`count = 0`, empty buffer, `firstWrite = true`), all `add` calls, then
the single `finish` call; every flush (batch and written string) in
order, the `finish` flush last. -/
def writerFlushes (fmt : Formatter) (batchSize : Option Nat) (inputs : List JSVal) :
    List (List JSVal × String) :=
  let run := wRun fmt batchSize ⟨0, [], true⟩ inputs
  run.2 ++ [(run.1.items, wFinish fmt run.1)]

/-! ## `JSON.stringify` and the CSV formatter (lines 156-200) -/

/-- Lower-case hexadecimal digit, as used by `JSON.stringify`'s
`\u00xx` escapes. -/
def hexDigit (n : Nat) : Char :=
  if n < 10 then Char.ofNat (48 + n) else Char.ofNat (87 + n)

/-- How `JSON.stringify` escapes one character inside a string literal:
`"` and `\` get a backslash, the usual control characters get their
two-character escapes, other control characters get `\u00xx`, and
everything else is copied verbatim. -/
def jsonEscapeChar (c : Char) : List Char :=
  if c = '"' then ['\\', '"']
  else if c = '\\' then ['\\', '\\']
  else if c = '\x08' then ['\\', 'b']
  else if c = '\t' then ['\\', 't']
  else if c = '\n' then ['\\', 'n']
  else if c = '\x0c' then ['\\', 'f']
  else if c = '\r' then ['\\', 'r']
  else if c.toNat < 32 then
    ['\\', 'u', '0', '0', hexDigit (c.toNat / 16), hexDigit (c.toNat % 16)]
  else [c]

/-- `JSON.stringify` applied to a string: double-quoted with the
characters escaped. -/
def jsonQuote (s : String) : String :=
  String.mk ('"' :: (s.data.map jsonEscapeChar).flatten ++ ['"'])

mutual

/-- `JSON.stringify` on a `JSVal`. -/
def jsonStringify : JSVal → String
  | .null => "null"
  | .bool true => "true"
  | .bool false => "false"
  | .int n => toString n
  | .str s => jsonQuote s
  | .arr xs => "[" ++ String.intercalate "," (jsonStringifyArr xs) ++ "]"
  | .obj kvs => "\x7b" ++ String.intercalate "," (jsonStringifyObj kvs) ++ "\x7d"

/-- `JSON.stringify` on each element of an array. -/
def jsonStringifyArr : List JSVal → List String
  | [] => []
  | x :: xs => jsonStringify x :: jsonStringifyArr xs

/-- `JSON.stringify` on each `key: value` pair of an object. -/
def jsonStringifyObj : List (String × JSVal) → List String
  | [] => []
  | kv :: kvs => (jsonQuote kv.1 ++ ":" ++ jsonStringify kv.2) :: jsonStringifyObj kvs

end

/-- The global replace `.replace(/\\"/g, '""')` of line 195: every
occurrence of backslash-quote becomes two double quotes, scanning left
to right without overlap. -/
def collapseEscQuote : List Char → List Char
  | [] => []
  | [c] => [c]
  | c1 :: c2 :: rest =>
    if c1 = '\\' ∧ c2 = '"' then '"' :: '"' :: collapseEscQuote rest
    else c1 :: collapseEscQuote (c2 :: rest)

/-- One CSV cell (lines 193-196): `JSON.stringify(v)` with its escaped
double quotes collapsed to CSV-style doubled quotes. -/
def csvCell (v : JSVal) : String :=
  String.mk (collapseEscQuote (jsonStringify v).data)

/-- `makeRow` (line 161): `a.map(JSON.stringify).join(',')`, used for
the header row. -/
def makeRow (a : List String) : String :=
  String.intercalate "," (a.map jsonQuote)

/-- The CSV row delimiter (line 163). -/
def csvDelim : String := "\r\n"

/-- JS property access `item[field]` on the object model; an absent key
yields `undefined`, modelled as `.null` (both are falsy, which is all
line 181 observes). -/
def objGet (kvs : List (String × JSVal)) (field : String) : JSVal :=
  match kvs.find? (fun kv => kv.1 = field) with
  | some kv => kv.2
  | none => .null

/-- Lines 178-184: turn an object into a field-ordered array, with
`item[field] || ''` substituting the empty string for falsy values. -/
def objRowVals (fields : List String) (kvs : List (String × JSVal)) : List JSVal :=
  fields.map (fun field =>
    let v := objGet kvs field
    if jsTruthy v then v else .str "")

/-- Lines 185-197 applied to an array-shaped row: truncate with
`slice(0, fields.length)`, pad with `concat(new Array(k))`, then
`map`/`join`.  `new Array(k)` produces `k` holes; JavaScript's `map`
skips holes and `join` renders them as empty strings, so the padded
positions contribute empty cells (not JSON-encoded ones). -/
def csvRowCells (fields : List String) (vals : List JSVal) : List String :=
  (vals.take fields.length).map csvCell
    ++ List.replicate (fields.length - vals.length) ""

/-- The field list in effect once `format` has processed an item
(lines 169-176): the configured/previous list if present, otherwise
synthetic `Column N` names for an array or the object's keys. -/
def csvFieldsAfter (fields : Option (List String)) (item : JSVal) : Option (List String) :=
  match fields with
  | some fl => some fl
  | none =>
    match item with
    | .arr xs => some ((List.range xs.length).map (fun i => "Column " ++ toString (i + 1)))
    | .obj kvs => some (kvs.map (fun kv => kv.1))
    | _ => none

/-- `formatters.csv`'s `format(item)` (lines 166-199).  `fields` is the
formatter's mutable `fields` variable (`none` until first defined).
Returns the string `format` produces (`none` models the JS `undefined`
returned for non-object items) and the updated `fields`.  When `fields`
was not yet defined, the generated header row and delimiter are
prepended to the first data row (line 175). -/
def csvFormat (fields : Option (List String)) (item : JSVal) :
    Option String × Option (List String) :=
  match item with
  | .arr xs =>
    match csvFieldsAfter fields (.arr xs) with
    | some fl =>
      let header := if fields.isSome then "" else makeRow fl ++ csvDelim
      (some (header ++ String.intercalate "," (csvRowCells fl xs)), some fl)
    | none => (none, fields)
  | .obj kvs =>
    match csvFieldsAfter fields (.obj kvs) with
    | some fl =>
      let header := if fields.isSome then "" else makeRow fl ++ csvDelim
      (some (header ++ String.intercalate "," (csvRowCells fl (objRowVals fl kvs))),
        some fl)
    | none => (none, fields)
  | _ => (none, fields)

/-- Standard CSV unquoting of one quoted cell body (everything after
the opening `"`): doubled quotes collapse to one quote, a lone closing
quote ends the cell; anything else after a lone quote, or a missing
closing quote, is malformed (`none`). -/
def csvUnquoteAux : List Char → Option (List Char)
  | [] => none
  | [c] => if c = '"' then some [] else none
  | c1 :: c2 :: rest =>
    if c1 = '"' then
      if c2 = '"' then (csvUnquoteAux rest).map (fun t => '"' :: t)
      else none
    else (csvUnquoteAux (c2 :: rest)).map (fun t => c1 :: t)

/-- Standard CSV parsing of one quoted cell: it must start with `"` and
the body is unquoted by `csvUnquoteAux`. -/
def csvUnquoteCell (s : String) : Option String :=
  match s.data with
  | '"' :: rest => (csvUnquoteAux rest).map String.mk
  | _ => none

/-! ## One-file-per-item writer (`writers.itemfile`, lines 289-314) -/

/-- A `phantom.saveToFile(content, path, mode)` call recorded by the
itemfile writer: `(path, content, mode)`. -/
def SaveCall : Type := String × String × Char

/-- `writers.itemfile`'s `w.add` (lines 297-307).  `outFile` is
`config.outFile`; `fmt` the formatter; `count` the writer's counter.
Returns the new counter and the `saveToFile` calls issued, in order.
The source computes `var filename = config.outFile + '-' + (count++)`
but then calls `phantom.saveToFile(i, config.outFile, 'w')`, so the
computed per-item filename is discarded and every write targets
`config.outFile` with overwrite mode; the model reproduces this. -/
def itemfileAdd (fmt : Formatter) (outFile : String) (count : Nat) (items : JSVal) :
    Nat × List SaveCall :=
  if jsTruthy items then
    let arr := arrify items
    let rec go (c : Nat) : List JSVal → Nat × List SaveCall
      | [] => (c, [])
      | v :: rest =>
        let _filename := outFile ++ "-" ++ toString c
        let next := go (c + 1) rest
        (next.1, (outFile, fmt.format v, 'w') :: next.2)
    go count arr
  else (count, [])

/-- `writers.itemfile`'s `w.finish` (line 309) is a no-op: it issues no
writes and leaves the counter unchanged. -/
def itemfileFinish (count : Nat) : Nat × List SaveCall := (count, [])

/-! ## Suite runner (lines 318-528) -/

/-- The per-suite options the crawl scheduler inspects: whether a
`moreUrls` hook is configured, and `maxDepth` (`none` = unset). -/
structure SuiteOpts where
  hasMoreUrls : Bool
  maxDepth : Option Nat
deriving DecidableEq

/-- A `ScraperSuite` (lines 357-377): title, ordered URL list, crawl
depth, and options (children inherit the parent's `s.opts`). -/
structure Suite where
  title : String
  urls : List String
  depth : Nat
  opts : SuiteOpts
deriving DecidableEq

/-- Model of what the page collaborator yields for one URL: the
`page.open` status, the scrapability predicate's value, each scraper's
return value in declared order, and the `moreUrls` hook's result
(`none` models a falsy return, `some list` an array, possibly empty). -/
structure PageModel where
  loadOk : Bool
  scrapable : Bool
  results : List JSVal
  more : Option (List String)

/-- The depth guard in `complete` (line 413):
`!s.opts.maxDepth || s.depth < s.opts.maxDepth`.  An unset `maxDepth`
and a configured `0` are both falsy, so both pass unconditionally. -/
def depthOk (maxDepth : Option Nat) (depth : Nat) : Bool :=
  match maxDepth with
  | none => true
  | some m => if m = 0 then true else decide (depth < m)

/-- The completion callback `complete` of `ScraperSuite.prototype.run`
(lines 408-425): given the suite, the sub-suite index `i`, the page
handle (`none` models `complete(false)` after a load failure) and the
current visited set, return the child suite enqueued, if any.

Line 414 of the source reads
`moreUrls.filter(function(url) { return !(url in visited)});` —
the filtered list is computed but the result is discarded, so the child
suite is built from the unfiltered `moreUrls`.  The model keeps the
dead computation as `_filtered` to mirror the source. -/
def completeStep (s : Suite) (subIdx : Nat) (page : Option PageModel)
    (visited : List String) : Option Suite :=
  match page with
  | none => none
  | some pg =>
    if s.opts.hasMoreUrls then
      match pg.more with
      | none => none
      | some moreUrls =>
        if depthOk s.opts.maxDepth s.depth then
          let _filtered := moreUrls.filter (fun url => !(visited.contains url))
          if moreUrls.length ≠ 0 then
            some ⟨s.title ++ "-sub" ++ toString subIdx, moreUrls, s.depth + 1, s.opts⟩
          else none
        else none
    else none

/-- Outcome of scraping a single URL: whether `page.open` reported a
failure (error logged, line 484), the values handed to `writer.add`
(line 402), and the child suite spawned by link discovery, if any. -/
structure UrlOutcome where
  url : String
  errored : Bool
  items : List JSVal
  spawned : Option Suite


/-- `ScraperSuite.prototype.scrape` (lines 444-488) followed by the
`complete` callback, for one URL.  On success the URL is marked
visited (line 454) and, if the page is scrapable, every scraper's
result is forwarded to the writer (lines 390-404); on failure an error
is logged and `complete(false)` is invoked, so no items and no link
discovery.  Returns the updated visited set and the outcome. -/
def scrapeUrl (env : String → PageModel) (s : Suite) (visited : List String)
    (url : String) (subIdx : Nat) : List String × UrlOutcome :=
  let pg := env url
  if pg.loadOk then
    let visited' := if visited.contains url then visited else visited ++ [url]
    let itms := if pg.scrapable then pg.results else []
    (visited', ⟨url, false, itms, completeStep s subIdx (some pg) visited'⟩)
  else
    (visited, ⟨url, true, [], completeStep s subIdx none visited⟩)

/-- The URL loop of `ScraperSuite.prototype.run` (lines 427-435):
process the remaining URLs sequentially, threading the visited set and
the sub-suite index (`i` is incremented only when a sub-suite is
created, line 418).  Returns the final visited set and one outcome per
URL, in order. -/
def runSuiteAux (env : String → PageModel) (s : Suite) :
    List String → Nat → List String → List String × List UrlOutcome
  | visited, _, [] => (visited, [])
  | visited, subIdx, url :: rest =>
    let step := scrapeUrl env s visited url subIdx
    let next := runSuiteAux env s step.1
      (subIdx + if step.2.spawned.isSome then 1 else 0) rest
    (next.1, step.2 :: next.2)

/-- Global crawl state: the run-scoped visited set (line 320), every
URL passed to `page.open` in order, every per-URL outcome, and every
child suite created by link discovery. -/
structure CrawlState where
  visited : List String
  opens : List String
  outcomes : List UrlOutcome
  created : List Suite

/-- `SuiteManager.runNext` (lines 342-346) driving the FIFO suite
queue, fuel-bounded for totality: pop the head suite, run it, append
any spawned child suites at the queue's tail, repeat. -/
def crawl (env : String → PageModel) : Nat → List Suite → CrawlState → CrawlState
  | 0, _, st => st
  | _ + 1, [], st => st
  | fuel + 1, s :: queue, st =>
    let run := runSuiteAux env s st.visited 0 s.urls
    let children := run.2.filterMap (fun o => o.spawned)
    crawl env fuel (queue ++ children)
      ⟨run.1, st.opens ++ s.urls, st.outcomes ++ run.2, st.created ++ children⟩

/-- Initial crawl state: nothing visited, opened, produced or created. -/
def initCrawl : CrawlState := ⟨[], [], [], []⟩

/-! ## Readiness polling (lines 466-482) -/

/-- The `setInterval` polling loop of `scrape` (lines 471-481), entered
when the readiness predicate is false immediately after load.  `ready k`
is the predicate's value at the `k`-th evaluation (`k = 0` is the
immediate check at line 466; `k ≥ 1` are the interval ticks).  After `n`
ticks the state is `(elapsed, fired)`: the accumulated `elapsed`
counter and the tick at which `scrapePage`/`complete` ran, if any
(`clearInterval` stops the loop once fired).  Each tick fires when
`page.evaluate(opts.ready) || elapsed > config.timeoutLimit`, otherwise
adds `config.timeoutInterval` to `elapsed`. -/
def pollTrace (ready : Nat → Bool) (limit interval : Nat) : Nat → Nat × Option Nat
  | 0 => (0, none)
  | n + 1 =>
    let p := pollTrace ready limit interval n
    match p.2 with
    | some _ => p
    | none =>
      if ready (n + 1) || decide (p.1 > limit) then (p.1, some (n + 1))
      else (p.1 + interval, none)

/-- When extraction runs for a successfully loaded page, as a tick
index: immediately (tick 0) when the readiness predicate holds right
after load (line 466), otherwise at the tick recorded by the polling
loop within the first `n` ticks. -/
def scrapeFire (ready : Nat → Bool) (limit interval n : Nat) : Option Nat :=
  if ready 0 then some 0 else (pollTrace ready limit interval n).2

/-! ## Concrete fixtures used to instantiate the theorems below -/

/-- A JSON-like formatter fixture with a constant `format`. -/
def fmtX : Formatter := ⟨"[", ",", "]", fun _ => "x"⟩

/-- A formatter fixture whose `format` is `JSON.stringify`. -/
def fmtJson : Formatter := ⟨"[", ",", "]", jsonStringify⟩

/-- Environment in which every page loads, yields no items, and
discovers the single URL `"a"` again. -/
def envLoop : String → PageModel := fun _ => ⟨true, true, [], some ["a"]⟩

/-- A depth-0 suite over the single URL `"a"`, with a `moreUrls` hook
and `maxDepth` 1. -/
def suiteLoop : Suite := ⟨"s", ["a"], 0, ⟨true, some 1⟩⟩

/-- Environment in which page `"a"` discovers three URLs, one of which
(`"a"` itself) is already visited when discovery runs. -/
def envThree : String → PageModel := fun u =>
  if u = "a" then ⟨true, true, [], some ["a", "b", "c"]⟩
  else ⟨true, true, [], none⟩

/-- Environment in which the URL `"bad"` fails to load and every other
URL loads and yields one item. -/
def envFail : String → PageModel := fun u =>
  if u = "bad" then ⟨false, true, [JSVal.int 1], some ["x"]⟩
  else ⟨true, true, [JSVal.int 2], none⟩

/-- A readiness predicate that never becomes true. -/
def readyNever : Nat → Bool := fun _ => false

/-! ## Helper lemmas -/

/-- Whenever `complete` creates a child suite, the child's depth is the
parent's plus one, the child inherits the parent's options, and the
depth guard held for the parent. -/
theorem completeStep_some {s : Suite} {subIdx : Nat} {page : Option PageModel}
    {visited : List String} {c : Suite}
    (h : completeStep s subIdx page visited = some c) :
    c.depth = s.depth + 1 ∧ c.opts = s.opts ∧
      depthOk s.opts.maxDepth s.depth = true := by
  cases page with
  | none => exact absurd h (by simp [completeStep])
  | some pg =>
    simp only [completeStep] at h
    by_cases hm : s.opts.hasMoreUrls = true
    · rw [if_pos hm] at h
      cases hmore : pg.more with
      | none => rw [hmore] at h; exact absurd h (by simp)
      | some moreUrls =>
        rw [hmore] at h
        dsimp only at h
        by_cases hd : depthOk s.opts.maxDepth s.depth = true
        · rw [if_pos hd] at h
          by_cases hl : moreUrls.length ≠ 0
          · rw [if_pos hl] at h
            cases h
            exact ⟨rfl, rfl, hd⟩
          · rw [if_neg hl] at h; exact absurd h (by simp)
        · rw [if_neg hd] at h; exact absurd h (by simp)
    · rw [if_neg hm] at h; exact absurd h (by simp)

/-- A passing depth guard with a configured positive `maxDepth` means
the depth is strictly below the bound. -/
theorem depthOk_some_pos {m d : Nat} (h : depthOk (some m) d = true) (hm : 0 < m) :
    d < m := by
  simp only [depthOk] at h
  rw [if_neg (Nat.pos_iff_ne_zero.mp hm)] at h
  exact of_decide_eq_true h

/-- Whatever a single-URL scrape spawns is the result of some
`completeStep` call. -/
theorem scrapeUrl_spawned_eq (env : String → PageModel) (s : Suite)
    (visited : List String) (url : String) (subIdx : Nat) :
    ∃ pg vis, (scrapeUrl env s visited url subIdx).2.spawned
      = completeStep s subIdx pg vis := by
  unfold scrapeUrl
  by_cases hl : (env url).loadOk = true
  · rw [if_pos hl]; dsimp only; exact ⟨_, _, rfl⟩
  · rw [if_neg hl]; dsimp only; exact ⟨_, _, rfl⟩

/-- Every child suite spawned anywhere in a suite's URL loop comes from
`completeStep` and therefore satisfies its guarantees. -/
theorem runSuiteAux_spawned (env : String → PageModel) (s : Suite) :
    ∀ (urls : List String) (visited : List String) (subIdx : Nat)
      (o : UrlOutcome) (c : Suite),
      o ∈ (runSuiteAux env s visited subIdx urls).2 → o.spawned = some c →
      c.depth = s.depth + 1 ∧ c.opts = s.opts ∧
        depthOk s.opts.maxDepth s.depth = true := by
  intro urls
  induction urls with
  | nil => intro visited subIdx o c ho; simp [runSuiteAux] at ho
  | cons url rest ih =>
    intro visited subIdx o c ho hc
    simp only [runSuiteAux, List.mem_cons] at ho
    rcases ho with ho | ho
    · subst ho
      obtain ⟨pg, vis, he⟩ := scrapeUrl_spawned_eq env s visited url subIdx
      rw [he] at hc
      exact completeStep_some hc
    · exact ih _ _ o c ho hc

/-- The depth-bound invariant, as a property of one suite. -/
def DepthBounded (c : Suite) : Prop :=
  ∀ m, c.opts.maxDepth = some m → 0 < m → c.depth ≤ m

/-- Every suite recorded as created during a crawl satisfies the
depth-bound invariant (regardless of fuel or queue). -/
theorem crawl_created_bounded (env : String → PageModel) :
    ∀ (fuel : Nat) (queue : List Suite) (st : CrawlState),
      (∀ c ∈ st.created, DepthBounded c) →
      ∀ c ∈ (crawl env fuel queue st).created, DepthBounded c := by
  intro fuel
  induction fuel with
  | zero => intro queue st hst c hc; exact hst c hc
  | succ fuel ih =>
    intro queue st hst c hc
    cases queue with
    | nil => exact hst c hc
    | cons s rest =>
      refine ih _ _ ?_ c hc
      intro c' hc'
      rw [List.mem_append] at hc'
      rcases hc' with hc' | hc'
      · exact hst c' hc'
      · rcases List.mem_filterMap.mp hc' with ⟨o, ho, hsp⟩
        obtain ⟨hdep, hopts, hok⟩ := runSuiteAux_spawned env s _ _ _ o c' ho hsp
        intro m hm hmpos
        rw [hopts] at hm
        rw [hm] at hok
        have := depthOk_some_pos hok hmpos
        omega

/-! ## Claim theorems -/

/-- C1: the claim says no URL string is ever passed to `page.open` more
than once in a run, with the visited set enforced before each open.  On
the code this fails: `complete` (line 414) computes
`moreUrls.filter(url => !(url in visited))` but discards the result, so
a child suite is built from the unfiltered URL list and an
already-visited URL is opened again.  Concretely: one suite over URL
`"a"` whose page rediscovers `"a"` makes the crawl open `"a"` twice. -/
theorem crawl_reopens_visited_url :
    (crawl envLoop 3 [suiteLoop] initCrawl).opens = ["a", "a"]
      ∧ ¬ (crawl envLoop 3 [suiteLoop] initCrawl).opens.Nodup := by
  exact ⟨rfl, by decide⟩

/-- C2: the claim says visited URLs are filtered out of a discovery
hook's result before the child suite is built (three candidates, one
visited, should leave two).  On the code the filter result is discarded
(line 414): page `"a"` discovers `["a","b","c"]` with `"a"` already
visited, yet the child suite is populated with all three URLs, while
the filtered list the source computes and drops has length two. -/
theorem child_suite_keeps_visited_urls :
    ((crawl envThree 1 [suiteLoop] initCrawl).created.map (fun c => c.urls))
        = [["a", "b", "c"]]
      ∧ (crawl envThree 1 [suiteLoop] initCrawl).visited = ["a"]
      ∧ (["a", "b", "c"].filter
          (fun u => !((["a"] : List String).contains u))).length = 2 := by
  exact ⟨rfl, rfl, rfl⟩

/-- C3: a child suite's depth is its parent's depth plus exactly one,
children inherit the parent's option set, and with a configured
positive `maxDepth` a child is created only while the parent's depth is
strictly below the bound — hence no created suite exceeds its
lineage's bound; the guard passes unconditionally when `maxDepth` is
unset (unbounded traversal). -/
theorem child_depth_and_max_depth_bound :
    (∀ (s : Suite) (subIdx : Nat) (page : Option PageModel)
        (visited : List String) (c : Suite),
      completeStep s subIdx page visited = some c →
      c.depth = s.depth + 1 ∧ c.opts = s.opts ∧
        (∀ m, s.opts.maxDepth = some m → 0 < m → s.depth < m ∧ c.depth ≤ m))
    ∧ (∀ d, depthOk none d = true)
    ∧ (∀ (env : String → PageModel) (fuel : Nat) (queue : List Suite),
        ∀ c ∈ (crawl env fuel queue initCrawl).created, DepthBounded c) := by
  refine ⟨?_, fun d => rfl, ?_⟩
  · intro s subIdx page visited c h
    obtain ⟨hdep, hopts, hok⟩ := completeStep_some h
    refine ⟨hdep, hopts, fun m hm hmpos => ?_⟩
    rw [hm] at hok
    have := depthOk_some_pos hok hmpos
    omega
  · intro env fuel queue c hc
    exact crawl_created_bounded env fuel queue initCrawl (by simp [initCrawl]) c hc

/-- C3 witness: a concrete parent at depth 0 with `maxDepth = 2` spawns
a concrete child of depth 1, which is at most the bound. -/
theorem child_depth_and_max_depth_bound_witness :
    completeStep ⟨"t", ["a"], 0, ⟨true, some 2⟩⟩ 0
        (some ⟨true, true, [], some ["b"]⟩) []
      = some ⟨"t-sub0", ["b"], 1, ⟨true, some 2⟩⟩
    ∧ (1 : Nat) = 0 + 1 ∧ (0 : Nat) < 2 ∧ (1 : Nat) ≤ 2 := by
  have h : completeStep ⟨"t", ["a"], 0, ⟨true, some 2⟩⟩ 0
      (some ⟨true, true, [], some ["b"]⟩) []
      = some ⟨"t-sub0", ["b"], 1, ⟨true, some 2⟩⟩ := rfl
  have h2 := child_depth_and_max_depth_bound.1 _ 0 _ [] _ h
  exact ⟨h, h2.1, (h2.2.2 2 rfl (by decide)).1, (h2.2.2 2 rfl (by decide)).2⟩

/-- C9: the claim says the one-file-per-item writer writes each item to
its own distinct output unit.  On the code this fails: line 303
computes `var filename = config.outFile + '-' + (count++)` but line 304
calls `phantom.saveToFile(i, config.outFile, 'w')`, so every item is
written to the same `config.outFile` in overwrite mode.  Adding two
items issues two writes with identical targets (so they are not
`Nodup`), though each item is serialized individually, the count rises
by two, and `finish` is a no-op. -/
theorem itemfile_writes_collide :
    itemfileAdd fmtJson "out.txt" 0 (.arr [.str "p", .str "q"])
        = (2, [("out.txt", "\"p\"", 'w'), ("out.txt", "\"q\"", 'w')])
      ∧ ¬ ((itemfileAdd fmtJson "out.txt" 0
            (.arr [.str "p", .str "q"])).2.map (fun w => w.1)).Nodup
      ∧ itemfileFinish 2 = (2, []) := by
  exact ⟨rfl, by decide, rfl⟩

/-- C10: with `maxDepth` configured as `0`, link discovery behaves
exactly as with `maxDepth` unset: the depth guard passes at every
depth (JavaScript's `!s.opts.maxDepth` treats `0` as falsy), and
`complete` spawns the same child (same title, URLs and depth) in both
configurations. -/
theorem max_depth_zero_is_unset :
    (∀ d, depthOk (some 0) d = depthOk none d)
    ∧ (∀ (title : String) (urls : List String) (depth subIdx : Nat)
        (hasMore : Bool) (page : Option PageModel) (visited : List String),
      Option.map (fun c : Suite => (c.title, c.urls, c.depth))
          (completeStep ⟨title, urls, depth, ⟨hasMore, some 0⟩⟩ subIdx page visited)
        = Option.map (fun c : Suite => (c.title, c.urls, c.depth))
          (completeStep ⟨title, urls, depth, ⟨hasMore, none⟩⟩ subIdx page visited)) := by
  constructor
  · intro d; rfl
  · intro title urls depth subIdx hasMore page visited
    cases page with
    | none => rfl
    | some pg =>
      simp only [completeStep]
      cases pg.more with
      | none => rfl
      | some moreUrls =>
        by_cases hl : moreUrls.length ≠ 0 <;>
          simp [depthOk, hl]

/-- C8: a URL whose `page.open` reports a non-success status yields an
error log, zero items, and no link discovery, while the URL loop still
processes every URL of the suite (one outcome per URL, in order). -/
theorem load_failure_recovered (env : String → PageModel) (s : Suite)
    (visited : List String) (subIdx : Nat) (urls : List String) :
    ((runSuiteAux env s visited subIdx urls).2.length = urls.length)
    ∧ (∀ k u, urls.get? k = some u → (env u).loadOk = false →
        ∃ o, (runSuiteAux env s visited subIdx urls).2.get? k = some o
          ∧ o.errored = true ∧ o.items = [] ∧ o.spawned = none) := by
  induction urls generalizing visited subIdx with
  | nil =>
    refine ⟨rfl, ?_⟩
    intro k u hk
    simp at hk
  | cons url rest ih =>
    constructor
    · simp only [runSuiteAux, List.length_cons]
      rw [(ih _ _).1]
    · intro k u hk hl
      cases k with
      | zero =>
        have hu : url = u := by simpa using hk
        subst hu
        refine ⟨⟨url, true, [], none⟩, ?_, rfl, rfl, rfl⟩
        simp only [runSuiteAux, List.get?]
        unfold scrapeUrl
        rw [if_neg (by rw [hl]; exact Bool.false_ne_true)]
        rfl
      | succ k =>
        have hrec := (ih (scrapeUrl env s visited url subIdx).1
            (subIdx + if (scrapeUrl env s visited url subIdx).2.spawned.isSome
              then 1 else 0)).2 k u (by simpa using hk) hl
        simpa [runSuiteAux] using hrec

/-- C8 witness: in `envFail`, a suite over `["bad", "good"]` where
`"bad"` fails to load still produces an outcome for both URLs, and the
failing URL's outcome is an error with no items and no child suite. -/
theorem load_failure_recovered_witness :
    (runSuiteAux envFail ⟨"s", ["bad", "good"], 0, ⟨false, none⟩⟩ [] 0
        ["bad", "good"]).2.length = 2
    ∧ ((runSuiteAux envFail ⟨"s", ["bad", "good"], 0, ⟨false, none⟩⟩ [] 0
        ["bad", "good"]).2.get? 0).map (fun o => o.errored) = some true := by
  have h := load_failure_recovered envFail ⟨"s", ["bad", "good"], 0, ⟨false, none⟩⟩
    [] 0 ["bad", "good"]
  obtain ⟨o, ho, he, _, _⟩ := h.2 0 "bad" rfl rfl
  exact ⟨h.1, by rw [ho]; simp [he]⟩

/-- C4 counterexample: the claim's "a batch is flushed when and only
when the buffer length strictly exceeds the threshold" is false as
stated: `add` first tests `if (i)` (line 251), so a falsy argument is
ignored entirely — with threshold 1 and a buffer already holding two
items, `add(null)` flushes nothing although the buffer exceeds the
threshold. -/
theorem add_flush_iff_refuted :
    ¬ (∀ (st : WriterState) (i : JSVal),
        (wAdd fmtX (some 1) st i).2 ≠ none
          ↔ 1 < (st.items ++ arrify i).length) := by
  intro h
  have h2 := (h ⟨2, [JSVal.int 1, JSVal.int 2], true⟩ JSVal.null).2 (by decide)
  exact h2 rfl

/-- C4 (amended): for every `add` call with a truthy argument, the
argument is arrify-normalized and appended, the cumulative count grows
by the appended length regardless of flushing, and — when a nonzero
batch size is configured — exactly one batch of exactly the threshold
size is flushed oldest-first precisely when the appended buffer
strictly exceeds the threshold, the remainder staying buffered.  (A
falsy argument is ignored entirely: no append, no flush check.) -/
theorem add_append_count_flush (fmt : Formatter) (batchSize : Option Nat)
    (st : WriterState) (i : JSVal) (h : jsTruthy i = true) :
    (wAdd fmt batchSize st i).1.count = st.count + (arrify i).length
    ∧ (∀ b, batchSize = some b → b ≠ 0 → b < (st.items ++ arrify i).length →
        (wAdd fmt batchSize st i).2
            = some ((st.items ++ arrify i).take b,
                writeBatch fmt st.firstWrite false ((st.items ++ arrify i).take b))
          ∧ (wAdd fmt batchSize st i).1.items = (st.items ++ arrify i).drop b
          ∧ ((st.items ++ arrify i).take b).length = b)
    ∧ ((wAdd fmt batchSize st i).2 = none →
        (wAdd fmt batchSize st i).1.items = st.items ++ arrify i)
    ∧ ((wAdd fmt batchSize st i).2 ≠ none →
        ∃ b, batchSize = some b ∧ b ≠ 0 ∧ b < (st.items ++ arrify i).length) := by
  unfold wAdd
  rw [if_pos h]
  dsimp only
  cases batchSize with
  | none =>
    dsimp only
    refine ⟨rfl, ?_, fun _ => rfl, fun hne => absurd rfl hne⟩
    intro b hb
    exact absurd hb (by simp)
  | some b =>
    dsimp only
    by_cases hc : b ≠ 0 ∧ (st.items ++ arrify i).length > b
    · rw [if_pos hc]
      refine ⟨rfl, ?_, ?_, ?_⟩
      · intro b' hb' hb0 hlt
        cases hb'
        exact ⟨rfl, rfl, by rw [List.length_take]; omega⟩
      · intro hnone
        exact absurd hnone (by simp)
      · intro _
        exact ⟨b, rfl, hc.1, hc.2⟩
    · rw [if_neg hc]
      refine ⟨rfl, ?_, fun _ => rfl, fun hne => absurd rfl hne⟩
      intro b' hb' hb0 hlt
      cases hb'
      exact absurd ⟨hb0, hlt⟩ hc

/-- C4 witness: with threshold 1, adding the two-element list `[7, 8]`
to an empty writer raises the count by 2 and flushes exactly the oldest
element. -/
theorem add_append_count_flush_witness :
    (wAdd fmtX (some 1) ⟨0, [], true⟩ (.arr [.int 7, .int 8])).1.count
        = 0 + (arrify (.arr [.int 7, .int 8])).length
    ∧ (wAdd fmtX (some 1) ⟨0, [], true⟩ (.arr [.int 7, .int 8])).2
        = some ((([] : List JSVal) ++ arrify (.arr [.int 7, .int 8])).take 1,
            writeBatch fmtX true false
              ((([] : List JSVal) ++ arrify (.arr [.int 7, .int 8])).take 1)) := by
  have h := add_append_count_flush fmtX (some 1) ⟨0, [], true⟩
    (.arr [.int 7, .int 8]) rfl
  exact ⟨h.1, (h.2.1 1 rfl (by decide) (by decide)).1⟩

/-- An `add` call either flushes nothing and leaves `firstWrite`
untouched, or flushes one batch written with the pre-call `firstWrite`
flag and clears the flag. -/
theorem wAdd_cases (fmt : Formatter) (batchSize : Option Nat)
    (st : WriterState) (i : JSVal) :
    ((wAdd fmt batchSize st i).2 = none
        ∧ (wAdd fmt batchSize st i).1.firstWrite = st.firstWrite)
    ∨ (∃ p, (wAdd fmt batchSize st i).2 = some p
        ∧ (wAdd fmt batchSize st i).1.firstWrite = false
        ∧ p.2 = writeBatch fmt st.firstWrite false p.1) := by
  unfold wAdd
  by_cases h : jsTruthy i = true
  · rw [if_pos h]
    dsimp only
    cases batchSize with
    | none => exact Or.inl ⟨rfl, rfl⟩
    | some b =>
      dsimp only
      by_cases hc : b ≠ 0 ∧ (st.items ++ arrify i).length > b
      · rw [if_pos hc]
        exact Or.inr ⟨_, rfl, rfl, rfl⟩
      · rw [if_neg hc]
        exact Or.inl ⟨rfl, rfl⟩
  · rw [if_neg h]
    exact Or.inl ⟨rfl, rfl⟩

/-- Across any sequence of `add` calls, the final `firstWrite` flag is
the initial one as long as nothing was flushed, and every flushed
string was framed with the flag that was current at its flush: the
initial flag for the first flush, `false` afterwards. -/
theorem wRun_framing (fmt : Formatter) (batchSize : Option Nat) :
    ∀ (inputs : List JSVal) (st : WriterState),
      ((wRun fmt batchSize st inputs).1.firstWrite
          = (st.firstWrite && (wRun fmt batchSize st inputs).2.isEmpty))
      ∧ (∀ k p, (wRun fmt batchSize st inputs).2.get? k = some p →
          p.2 = writeBatch fmt (st.firstWrite && decide (k = 0)) false p.1) := by
  intro inputs
  induction inputs with
  | nil =>
    intro st
    refine ⟨by simp [wRun], ?_⟩
    intro k p hp
    simp [wRun] at hp
  | cons i rest ih =>
    intro st
    rcases wAdd_cases fmt batchSize st i with ⟨hnone, hfw⟩ | ⟨p0, hsome, hfw, hstr⟩
    · have hr : wRun fmt batchSize st (i :: rest)
          = wRun fmt batchSize (wAdd fmt batchSize st i).1 rest := by
        simp [wRun, hnone]
      refine ⟨?_, ?_⟩
      · rw [hr, (ih _).1, hfw]
      · intro k p hp
        rw [hr] at hp
        have h2 := (ih _).2 k p hp
        rw [hfw] at h2
        exact h2
    · have hr1 : (wRun fmt batchSize st (i :: rest)).1
          = (wRun fmt batchSize (wAdd fmt batchSize st i).1 rest).1 := by
        simp [wRun]
      have hr2 : (wRun fmt batchSize st (i :: rest)).2
          = p0 :: (wRun fmt batchSize (wAdd fmt batchSize st i).1 rest).2 := by
        simp [wRun, hsome]
      refine ⟨?_, ?_⟩
      · rw [hr1, (ih _).1, hfw, hr2]
        simp
      · intro k p hp
        rw [hr2] at hp
        cases k with
        | zero =>
          have hp0 : p = p0 := by simpa using hp.symm
          subst hp0
          rw [hstr]
          simp
        | succ k =>
          have h2 := (ih _).2 k p (by simpa using hp)
          rw [hfw] at h2
          simpa using h2

/-- C5: across any writer run (any formatter, any batch size, any
inputs), there is at least one flush — `finish` flushes even an empty
buffer — and the string written by flush number `k` is framed with the
formatter's start token exactly when `k = 0`, with the delimiter token
otherwise, and carries the end token exactly when `k` is the last
flush, which by construction is the one `finish` triggers. -/
theorem writer_frames_start_delim_end (fmt : Formatter) (batchSize : Option Nat)
    (inputs : List JSVal) :
    1 ≤ (writerFlushes fmt batchSize inputs).length
    ∧ ∀ k p, (writerFlushes fmt batchSize inputs).get? k = some p →
        p.2 = (if k = 0 then fmt.start else fmt.delim)
          ++ String.intercalate fmt.delim (p.1.map fmt.format)
          ++ (if k = (writerFlushes fmt batchSize inputs).length - 1
              then fmt.endTok else "") := by
  have key := wRun_framing fmt batchSize inputs ⟨0, [], true⟩
  constructor
  · unfold writerFlushes
    simp
  · intro k p hp
    have hlen : (writerFlushes fmt batchSize inputs).length
        = (wRun fmt batchSize ⟨0, [], true⟩ inputs).2.length + 1 := by
      unfold writerFlushes
      simp
    by_cases hk : k < (wRun fmt batchSize ⟨0, [], true⟩ inputs).2.length
    · have hget : (writerFlushes fmt batchSize inputs).get? k
          = (wRun fmt batchSize ⟨0, [], true⟩ inputs).2.get? k := by
        unfold writerFlushes
        exact List.get?_append hk
      rw [hget] at hp
      have h2 := key.2 k p hp
      have hkne : ¬ k = (writerFlushes fmt batchSize inputs).length - 1 := by
        rw [hlen]; omega
      rw [if_neg hkne]
      rw [h2]
      by_cases hk0 : k = 0 <;> simp [writeBatch, hk0]
    · have hke : k = (wRun fmt batchSize ⟨0, [], true⟩ inputs).2.length
          ∨ (writerFlushes fmt batchSize inputs).length ≤ k := by
        rw [hlen]; omega
      rcases hke with hke | hke
      · have hget : (writerFlushes fmt batchSize inputs).get? k
            = some ((wRun fmt batchSize ⟨0, [], true⟩ inputs).1.items,
                wFinish fmt (wRun fmt batchSize ⟨0, [], true⟩ inputs).1) := by
          unfold writerFlushes
          rw [List.get?_append_right (by omega), hke]
          simp
        rw [hget] at hp
        have hpe := (Option.some.injEq _ _).mp hp
        subst hpe
        have hfw := key.1
        rw [Bool.true_and] at hfw
        have hlast : k = (writerFlushes fmt batchSize inputs).length - 1 := by
          rw [hlen]; omega
        rw [if_pos hlast]
        cases hr2 : (wRun fmt batchSize ⟨0, [], true⟩ inputs).2 with
        | nil =>
          have hk0 : k = 0 := by rw [hke, hr2]; rfl
          unfold wFinish writeBatch
          rw [hfw, hr2]
          simp [hk0]
        | cons q qs =>
          have hk0 : ¬ k = 0 := by rw [hke, hr2]; simp
          unfold wFinish writeBatch
          rw [hfw, hr2]
          simp [hk0]
      · have : (writerFlushes fmt batchSize inputs).get? k = none :=
          List.get?_eq_none.mpr hke
        rw [this] at hp
        exact absurd hp (by simp)

/-- C5 witness: with the JSON-like formatter, threshold 1 and inputs
`[1, 2]`, the second (finish) flush is delimiter-framed and carries the
end token. -/
theorem writer_frames_start_delim_end_witness :
    ((writerFlushes fmtX (some 1) [JSVal.int 1, JSVal.int 2]).get? 1).map
        (fun p => p.2) = some ",x]" := by
  have h := writer_frames_start_delim_end fmtX (some 1) [JSVal.int 1, JSVal.int 2]
  have hget : (writerFlushes fmtX (some 1) [JSVal.int 1, JSVal.int 2]).get? 1
      = some ([JSVal.int 2], ",x]") := by rfl
  have h2 := h.2 1 ([JSVal.int 2], ",x]") hget
  rw [hget]
  show some (([JSVal.int 2], ",x]").2) = some ",x]"
  rw [h2]
  rfl

/-- A CSV data row always has exactly as many cells as the field list:
overlong value lists are truncated, short ones padded. -/
theorem csvRowCells_length (fields : List String) (vals : List JSVal) :
    (csvRowCells fields vals).length = fields.length := by
  simp only [csvRowCells, List.length_append, List.length_map, List.length_take,
    List.length_replicate]
  omega

/-- An ordinary character (not a quote, not a backslash, not a control
character) is copied verbatim by the JSON escaper. -/
theorem jsonEscapeChar_eq_self {c : Char} (h1 : c ≠ '"') (h2 : c ≠ '\\')
    (h3 : 32 ≤ c.toNat) : jsonEscapeChar c = [c] := by
  have e8 : c ≠ '\x08' := by intro h; subst h; exact absurd h3 (by decide)
  have e9 : c ≠ '\t' := by intro h; subst h; exact absurd h3 (by decide)
  have e10 : c ≠ '\n' := by intro h; subst h; exact absurd h3 (by decide)
  have e12 : c ≠ '\x0c' := by intro h; subst h; exact absurd h3 (by decide)
  have e13 : c ≠ '\r' := by intro h; subst h; exact absurd h3 (by decide)
  have e32 : ¬ c.toNat < 32 := by omega
  simp [jsonEscapeChar, h1, h2, e8, e9, e10, e12, e13, e32]

/-- The collapse scanner copies a non-backslash head verbatim. -/
theorem collapseEscQuote_cons_ne {c : Char} (h : c ≠ '\\') (t : List Char) :
    collapseEscQuote (c :: t) = c :: collapseEscQuote t := by
  cases t with
  | nil => rfl
  | cons c2 r => simp [collapseEscQuote, h]

/-- The collapse scanner turns a backslash-quote pair into a doubled
quote. -/
theorem collapseEscQuote_esc (t : List Char) :
    collapseEscQuote ('\\' :: '"' :: t) = '"' :: '"' :: collapseEscQuote t := by
  simp [collapseEscQuote]

/-- CSV unquoting consumes a non-quote character verbatim. -/
theorem csvUnquoteAux_cons_ne {c : Char} (h : c ≠ '"') (t : List Char) :
    csvUnquoteAux (c :: t) = (csvUnquoteAux t).map (fun l => c :: l) := by
  cases t with
  | nil => simp [csvUnquoteAux, h]
  | cons c2 r => simp [csvUnquoteAux, h]

/-- CSV unquoting collapses a doubled quote to one quote character. -/
theorem csvUnquoteAux_quote_quote (t : List Char) :
    csvUnquoteAux ('"' :: '"' :: t) = (csvUnquoteAux t).map (fun l => '"' :: l) := by
  simp [csvUnquoteAux]

/-- Round trip of the cell body: JSON-escaping a backslash-free,
control-free character list, collapsing `\"` to `""` and closing with a
quote is inverted exactly by standard CSV unquoting. -/
theorem collapse_unquote : ∀ (l : List Char),
    (∀ c ∈ l, c ≠ '\\' ∧ 32 ≤ c.toNat) →
    csvUnquoteAux (collapseEscQuote ((l.map jsonEscapeChar).flatten ++ ['"']))
      = some l := by
  intro l
  induction l with
  | nil => intro _; rfl
  | cons c rest ih =>
    intro h
    have hc := h c (by simp)
    have hrest : ∀ c' ∈ rest, c' ≠ '\\' ∧ 32 ≤ c'.toNat :=
      fun c' hc' => h c' (by simp [hc'])
    by_cases hq : c = '"'
    · subst hq
      have he : jsonEscapeChar '"' = ['\\', '"'] := rfl
      rw [List.map_cons, List.flatten_cons, he]
      show csvUnquoteAux (collapseEscQuote
        ('\\' :: '"' :: ((rest.map jsonEscapeChar).flatten ++ ['"']))) = _
      rw [collapseEscQuote_esc, csvUnquoteAux_quote_quote, ih hrest]
      rfl
    · have he : jsonEscapeChar c = [c] := jsonEscapeChar_eq_self hq hc.1 hc.2
      rw [List.map_cons, List.flatten_cons, he]
      show csvUnquoteAux (collapseEscQuote
        (c :: ((rest.map jsonEscapeChar).flatten ++ ['"']))) = _
      rw [collapseEscQuote_cons_ne hc.1, csvUnquoteAux_cons_ne hq, ih hrest]
      rfl

/-- A string cell whose characters are backslash-free and printable
survives the CSV cell encoding and standard CSV parsing unchanged. -/
theorem csv_roundtrip_str (s : String) (h : ∀ c ∈ s.data, c ≠ '\\' ∧ 32 ≤ c.toNat) :
    csvUnquoteCell (csvCell (JSVal.str s)) = some s := by
  show csvUnquoteCell (String.mk (collapseEscQuote
      ('"' :: ((s.data.map jsonEscapeChar).flatten ++ ['"'])))) = some s
  rw [collapseEscQuote_cons_ne (by decide)]
  show (csvUnquoteAux (collapseEscQuote
      ((s.data.map jsonEscapeChar).flatten ++ ['"']))).map String.mk = some s
  rw [collapse_unquote s.data h]
  rfl

/-- C6: for every array- or object-shaped item, the CSV formatter
emits a data row with exactly as many cells as the effective field
list (short rows padded, long ones truncated), the header row has the
same number of cells, and a string cell without backslashes or control
characters — in particular one containing a double quote — round-trips
through standard CSV parsing because the JSON-escaped quotes are
collapsed to CSV-style doubled quotes. -/
theorem csv_row_width_and_quote_roundtrip :
    (∀ (fields : Option (List String)) (item : JSVal),
      ((∃ xs, item = JSVal.arr xs) ∨ (∃ kvs, item = JSVal.obj kvs)) →
      ∃ fl cells, csvFieldsAfter fields item = some fl
        ∧ cells.length = fl.length
        ∧ (fl.map jsonQuote).length = fl.length
        ∧ csvFormat fields item
            = (some ((if fields.isSome then "" else makeRow fl ++ csvDelim)
                ++ String.intercalate "," cells), some fl))
    ∧ (∀ s : String, (∀ c ∈ s.data, c ≠ '\\' ∧ 32 ≤ c.toNat) →
        csvUnquoteCell (csvCell (JSVal.str s)) = some s) := by
  constructor
  · intro fields item hitem
    rcases hitem with ⟨xs, rfl⟩ | ⟨kvs, rfl⟩
    · cases fields with
      | none => exact ⟨_, _, rfl, csvRowCells_length _ _, by simp, rfl⟩
      | some fl => exact ⟨fl, csvRowCells fl xs, rfl, csvRowCells_length _ _,
          by simp, rfl⟩
    · cases fields with
      | none => exact ⟨_, _, rfl, csvRowCells_length _ _, by simp, rfl⟩
      | some fl => exact ⟨fl, csvRowCells fl (objRowVals fl kvs), rfl,
          csvRowCells_length _ _, by simp, rfl⟩
  · exact csv_roundtrip_str

/-- C6 witness: the string `x"y` round-trips through its CSV cell, and
with configured fields `["a", "b"]` an object item keeps that field
list. -/
theorem csv_row_width_and_quote_roundtrip_witness :
    csvUnquoteCell (csvCell (JSVal.str "x\"y")) = some "x\"y"
    ∧ (csvFormat (some ["a", "b"]) (JSVal.obj [("a", JSVal.str "q")])).2
        = some ["a", "b"] := by
  have h1 := csv_row_width_and_quote_roundtrip.2 "x\"y" (by decide)
  obtain ⟨fl, cells, hfl, _, _, hfmt⟩ := csv_row_width_and_quote_roundtrip.1
    (some ["a", "b"]) (JSVal.obj [("a", JSVal.str "q")]) (Or.inr ⟨_, rfl⟩)
  have h3 : (some ["a", "b"] : Option (List String)) = some fl := hfl
  cases h3
  exact ⟨h1, by rw [hfmt]⟩

/-- C7: for a successfully loaded page and positive poll interval,
extraction fires immediately (tick 0) when the readiness predicate
holds right after load; otherwise, if `T` is the first poll tick at
which the predicate holds or the accumulated `elapsed` counter
(`(T-1) * interval`) exceeds the timeout limit, then every run of the
polling loop is in state `(elapsed, none)` strictly before tick `T` —
extraction never fires earlier — and is fixed at
`((T-1) * interval, some T)` from tick `T` on — extraction fires
exactly once, at `T`.  Moreover the timeout alone forces extraction:
within `limit / interval + 2` ticks the fire has happened regardless of
the predicate, so a never-ready page is extracted rather than aborted. -/
theorem extraction_once_ready_or_timeout (ready : Nat → Bool)
    (limit interval : Nat) (hI : 0 < interval) :
    (ready 0 = true → ∀ n, scrapeFire ready limit interval n = some 0)
    ∧ (ready 0 = false → ∀ T, 1 ≤ T →
        (ready T || decide ((T - 1) * interval > limit)) = true →
        (∀ k, 1 ≤ k → k < T →
          (ready k || decide ((k - 1) * interval > limit)) = false) →
        ∀ n, pollTrace ready limit interval n
          = if T ≤ n then ((T - 1) * interval, some T)
            else (n * interval, none))
    ∧ (scrapeFire ready limit interval (limit / interval + 2)).isSome = true := by
  have partB : ready 0 = false → ∀ T, 1 ≤ T →
      (ready T || decide ((T - 1) * interval > limit)) = true →
      (∀ k, 1 ≤ k → k < T →
        (ready k || decide ((k - 1) * interval > limit)) = false) →
      ∀ n, pollTrace ready limit interval n
        = if T ≤ n then ((T - 1) * interval, some T)
          else (n * interval, none) := by
    intro _ T hT1 hcond hmin n
    induction n with
    | zero =>
      rw [if_neg (by omega)]
      simp [pollTrace]
    | succ n ih =>
      simp only [pollTrace]
      rw [ih]
      by_cases hTn : T ≤ n
      · rw [if_pos hTn, if_pos (by omega : T ≤ n + 1)]
      · rw [if_neg hTn]
        by_cases hTeq : T = n + 1
        · subst hTeq
          have hcond2 : (ready (n + 1) || decide (n * interval > limit)) = true := by
            simpa using hcond
          rw [if_pos (le_refl (n + 1))]
          dsimp only
          rw [hcond2]
          simp
        · have hmin2 : (ready (n + 1) || decide (n * interval > limit)) = false := by
            have := hmin (n + 1) (by omega) (by omega)
            simpa using this
          rw [if_neg (by omega : ¬ T ≤ n + 1)]
          dsimp only
          rw [hmin2]
          simp [Nat.succ_mul]
  refine ⟨?_, partB, ?_⟩
  · intro h0 n
    unfold scrapeFire
    rw [if_pos h0]
  · by_cases h0 : ready 0 = true
    · unfold scrapeFire
      rw [if_pos h0]
      rfl
    · have h0f : ready 0 = false := by revert h0; cases ready 0 <;> simp
      have hforced : (limit / interval + 1) * interval > limit := by
        have hdm := Nat.div_add_mod limit interval
        have hmod : limit % interval < interval := Nat.mod_lt _ hI
        calc limit = interval * (limit / interval) + limit % interval := hdm.symm
          _ < interval * (limit / interval) + interval := by omega
          _ = (limit / interval + 1) * interval := by ring
      have htimeout : (ready (limit / interval + 2)
          || decide ((limit / interval + 2 - 1) * interval > limit)) = true := by
        have h21 : limit / interval + 2 - 1 = limit / interval + 1 := rfl
        rw [h21, decide_eq_true hforced, Bool.or_true]
      have hex : ∃ k, 1 ≤ k
          ∧ (ready k || decide ((k - 1) * interval > limit)) = true :=
        ⟨limit / interval + 2, Nat.succ_le_succ (Nat.zero_le _), htimeout⟩
      have hspec := Nat.find_spec hex
      have hminF : ∀ k, 1 ≤ k → k < Nat.find hex →
          (ready k || decide ((k - 1) * interval > limit)) = false := by
        intro k hk1 hkT
        have hnot := Nat.find_min hex hkT
        cases hval : (ready k || decide ((k - 1) * interval > limit)) with
        | false => rfl
        | true => exact absurd ⟨hk1, hval⟩ hnot
      have htr := partB h0f (Nat.find hex) hspec.1 hspec.2 hminF
        (limit / interval + 2)
      have hTle : Nat.find hex ≤ limit / interval + 2 :=
        Nat.find_min' hex ⟨Nat.succ_le_succ (Nat.zero_le _), htimeout⟩
      unfold scrapeFire
      rw [if_neg h0, htr, if_pos hTle]
      rfl

/-- C7 witness: with a never-true readiness predicate, limit 3000 and
interval 300, the poll loop fires exactly at tick 12 (elapsed counter
3300 > 3000) and the forced-extraction bound holds. -/
theorem extraction_once_ready_or_timeout_witness :
    (pollTrace readyNever 3000 300 12
        = if 12 ≤ 12 then ((12 - 1) * 300, some 12) else (12 * 300, none))
    ∧ (scrapeFire readyNever 3000 300 (3000 / 300 + 2)).isSome = true := by
  have h := extraction_once_ready_or_timeout readyNever 3000 300 (by decide)
  refine ⟨h.2.1 rfl 12 (by decide) (by decide) ?_ 12, h.2.2⟩
  intro k h1 h2
  interval_cases k <;> rfl

end Pjscrape
